import Mathlib

/-!
Verification development for the TestTribe agentic-AI workshop repository.

Part 1 embeds the UI-executor orchestration graph wired in
`src/graph/ui_executor/graph.py` (`build_ui_app`): the builder calls
(`add_node`, `add_edge`, `set_entry_point`, `add_conditional_edges`) are
mirrored one for one, so the resulting `WGraph` value records exactly the
topology the source constructs.  LangGraph's `END` sentinel is modelled as
the distinguished node name `"__end__"`.

Part 2 embeds the node semantics and the orchestration loop.  The node
implementations (`nodes.py`) and the state type (`state.py`) are imported by
`graph.py` but are not part of the sources given here, so those definitions
are modelled from the specification (each such definition carries a doc
comment starting with `Modelled from the spec:`).

Part 3 embeds the test-case generation agent `src/agents/testcase_agent.py`:
the nudge-and-retry JSON recovery, the `_norm` title normalizer, the
mapping loop, and the dedupe/upload loop.  External collaborators
(`parse_json_safely`, `map_case_to_testrail_payload`, `create_case`,
`add_result`, `list_cases`) are parameters of the embedded functions.
-/

/-- A LangGraph `StateGraph` under construction: node names, unconditional
edges, conditional edge groups `(source, key ↦ target mapping)`, and the
entry point, each recorded in the order the builder calls are made. -/
structure WGraph where
  nodes : List String
  edges : List (String × String)
  condEdges : List (String × List (String × String))
  entry : Option String
deriving DecidableEq, Repr

/-- LangGraph's `END` sentinel node. -/
def ENDNode : String := "__end__"

/-- `g.add_node(n, _)` — records the node name. -/
def addNode (g : WGraph) (n : String) : WGraph :=
  { g with nodes := g.nodes ++ [n] }

/-- `g.add_edge(a, b)` — records an unconditional edge. -/
def addEdge (g : WGraph) (a b : String) : WGraph :=
  { g with edges := g.edges ++ [(a, b)] }

/-- `g.set_entry_point(n)`. -/
def setEntryPoint (g : WGraph) (n : String) : WGraph :=
  { g with entry := some n }

/-- `g.add_conditional_edges(src, router, mapping)` — records the source node
and the key-to-target mapping (the router function itself is embedded
separately as `decide_after_approval`). -/
def addConditionalEdges (g : WGraph) (src : String) (mapping : List (String × String)) : WGraph :=
  { g with condEdges := g.condEdges ++ [(src, mapping)] }

/-- The empty `StateGraph(UIExecState)`. -/
def emptyWGraph : WGraph := ⟨[], [], [], none⟩

/-- `build_ui_app` from `src/graph/ui_executor/graph.py`, lines 23–53:
six nodes, the four linear edges, the entry point, the one conditional
branch after `"approve"` (mapping `"retry" ↦ "retry"`, `"end" ↦ END`), and
the back edge `"retry" → "run"`. -/
def build_ui_app : WGraph :=
  let g := emptyWGraph
  let g := addNode g "prepare"
  let g := addNode g "run"
  let g := addNode g "parse"
  let g := addNode g "llm_triage"
  let g := addNode g "approve"
  let g := addNode g "retry"
  let g := setEntryPoint g "prepare"
  let g := addEdge g "prepare" "run"
  let g := addEdge g "run" "parse"
  let g := addEdge g "parse" "llm_triage"
  let g := addEdge g "llm_triage" "approve"
  let g := addConditionalEdges g "approve" [("retry", "retry"), ("end", ENDNode)]
  let g := addEdge g "retry" "run"
  g

/-- Targets of the unconditional edges leaving node `n`. -/
def succs (g : WGraph) (n : String) : List String :=
  (g.edges.filter (fun e => e.1 == n)).map (fun e => e.2)

/-- All edges of the compiled graph, unconditional and conditional alike. -/
def allEdges (g : WGraph) : List (String × String) :=
  g.edges ++ g.condEdges.flatMap (fun p => p.2.map (fun kv => (p.1, kv.2)))

/-- Adjacency of the compiled UI-executor graph. -/
def uiEdge (a b : String) : Bool :=
  (allEdges build_ui_app).contains (a, b)

/-- Adjacency of the UI-executor graph with the single `retry → run` back
edge removed. -/
def uiEdgeNoBack (a b : String) : Bool :=
  uiEdge a b && !(a == "retry" && b == "run")

/-- `uiChain a l` holds when `a :: l` is a walk along `uiEdge`. -/
def uiChain : String → List String → Bool
  | _, [] => true
  | a, b :: rest => uiEdge a b && uiChain b rest

/-- `uiChainNoBack a l` holds when `a :: l` is a walk avoiding the back edge. -/
def uiChainNoBack : String → List String → Bool
  | _, [] => true
  | a, b :: rest => uiEdgeNoBack a b && uiChainNoBack b rest

/-- `hitsRetryRun a l` holds when the walk `a :: l` traverses the edge
`retry → run` at some step. -/
def hitsRetryRun : String → List String → Bool
  | _, [] => false
  | a, b :: rest => (a == "retry" && b == "run") || hitsRetryRun b rest

/-- Topological rank used to show the back-edge-free graph is acyclic. -/
def uiRank (n : String) : Nat :=
  if n == "prepare" then 0
  else if n == "run" then 1
  else if n == "parse" then 2
  else if n == "llm_triage" then 3
  else if n == "approve" then 4
  else if n == "retry" then 5
  else 6

/-- Per-test outcome status (spec §3, `results` field). -/
inductive TCStatus
  | pass
  | fail
  | error
  | skipped
deriving DecidableEq, Repr

/-- One entry of the ordered `results` sequence (spec §3). -/
structure TestOutcome where
  name : String
  status : TCStatus
  detail : String
deriving DecidableEq, Repr

/-- Triage verdict for one failing test (spec §3). -/
inductive Verdict
  | likely_flaky
  | likely_regression
  | inconclusive
deriving DecidableEq, Repr

/-- One entry of the `triage` classification (spec §3). -/
structure TriageEntry where
  name : String
  verdict : Verdict
  rationale : String
deriving DecidableEq, Repr

/-- Outcome of the Approve step (spec §3, `decision` field). -/
structure Decision where
  accept : Bool
  note : String
deriving DecidableEq, Repr

/-- Reason a run ended (spec §3, `terminal_reason` field). -/
inductive TerminalReason
  | all_passed
  | approved_after_retry
  | retries_exhausted
  | fatal_error
deriving DecidableEq, Repr

/-- Resolved run configuration (spec §3, `config` field). -/
structure UIConfig where
  suite_selector : String
  environment : String
  max_retries : Nat
deriving DecidableEq, Repr

/-- Modelled from the spec: the `UIExecState` record of
`src/graph/ui_executor/state.py`, which is not among the given sources;
fields follow spec §3 (absent values are `none`). -/
structure RunState where
  config : UIConfig
  attempt : Nat
  raw_output : Option String
  results : Option (List TestOutcome)
  triage : Option (List TriageEntry)
  decision : Option Decision
  terminal_reason : Option TerminalReason
deriving DecidableEq, Repr

/-- Modelled from the spec: the `prepare_config` node of `nodes.py` (not
among the given sources), per spec §4.1 — `config` populated, `attempt = 0`,
all later fields empty. -/
def prepare_config (cfg : UIConfig) : RunState :=
  ⟨cfg, 0, none, none, none, none, none⟩

/-- Modelled from the spec: the `execute_tests` node of `nodes.py` (not
among the given sources), per spec §4.2 — sets `raw_output` and increments
`attempt` by 1.  The external runner is the parameter `runner`, keyed by the
attempt number being executed. -/
def execute_tests (runner : Nat → String) (s : RunState) : RunState :=
  { s with attempt := s.attempt + 1, raw_output := some (runner (s.attempt + 1)) }

/-- Modelled from the spec: the `parse_results` node of `nodes.py` (not
among the given sources), per spec §4.3 — deterministically converts
`raw_output` into `results` and clears stale `triage` and `decision`.  The
deterministic converter is the parameter `conv`. -/
def parse_results (conv : String → List TestOutcome) (s : RunState) : RunState :=
  { s with results := some (conv (s.raw_output.getD "")), triage := none, decision := none }

/-- Modelled from the spec: the `llm_triage` node of `nodes.py` (not among
the given sources), per spec §4.4 — one triage entry per non-pass test, in
`results` order; a no-op producing an empty `triage` when every test passed.
The classification collaborator is the parameter `classify`. -/
def llm_triage (classify : String → String → Verdict × String) (s : RunState) : RunState :=
  let rs := s.results.getD []
  let entries := (rs.filter (fun t => t.status != TCStatus.pass)).map
    (fun t => TriageEntry.mk t.name (classify t.name t.detail).1 (classify t.name t.detail).2)
  { s with triage := some entries }

/-- Modelled from the spec: the `approval_checkpoint` node of `nodes.py`
(not among the given sources), per spec §4.5's default automatic policy —
accept iff `triage` is empty or every verdict is `likely_flaky`; rejects
otherwise.  It is the only step setting `decision`. -/
def approval_checkpoint (s : RunState) : RunState :=
  let tr := s.triage.getD []
  let ok := tr.isEmpty || tr.all (fun e => e.verdict == Verdict.likely_flaky)
  { s with decision := some ⟨ok, "auto"⟩ }

/-- What the router may select: loop back to retry, or terminate the run
with the terminal reason it sets (spec §4.6). -/
inductive RouteChoice
  | retry
  | terminate : TerminalReason → RouteChoice
deriving DecidableEq, Repr

/-- `decision.accept` read off a state; an absent decision counts as not
accepted. -/
def acceptOf (s : RunState) : Bool :=
  (s.decision.map Decision.accept).getD false

/-- Modelled from the spec: the `decide_after_approval` router of `nodes.py`
(not among the given sources), per spec §4.6, clauses in order:
1. `decision.accept` → terminate (`all_passed` if `triage` empty, else
   `approved_after_retry`);
2. else `attempt ≥ max_retries + 1` → terminate (`retries_exhausted`);
3. else retry. -/
def decide_after_approval (s : RunState) : RouteChoice :=
  if acceptOf s then
    RouteChoice.terminate
      (if (s.triage.getD []).isEmpty then TerminalReason.all_passed
       else TerminalReason.approved_after_retry)
  else if s.config.max_retries + 1 ≤ s.attempt then
    RouteChoice.terminate TerminalReason.retries_exhausted
  else
    RouteChoice.retry

/-- Modelled from the spec: the `retry_once` node of `nodes.py` (not among
the given sources), per spec §4.7 — clears `raw_output`, `results`,
`triage`, `decision`; `attempt` is not reset; nothing else changes. -/
def retry_once (s : RunState) : RunState :=
  { s with raw_output := none, results := none, triage := none, decision := none }

/-- One trip along the linear edges `run → parse → llm_triage → approve` of
the compiled graph (`graph.py` lines 35–38). -/
def run_attempt (runner : Nat → String) (conv : String → List TestOutcome)
    (classify : String → String → Verdict × String) (s : RunState) : RunState :=
  approval_checkpoint (llm_triage classify (parse_results conv (execute_tests runner s)))

/-- Modelled from the spec: the compiled graph's drive loop (spec §4.8) with
explicit fuel — run one attempt, ask the router, follow the `retry` edge
back or stop, recording the chosen terminal reason.  Returns the final
state together with the number of Execute invocations, or `none` if the
fuel runs out. -/
def orch_loop (runner : Nat → String) (conv : String → List TestOutcome)
    (classify : String → String → Verdict × String) :
    Nat → RunState → Option (RunState × Nat)
  | 0, _ => none
  | fuel + 1, s =>
    let s1 := run_attempt runner conv classify s
    match decide_after_approval s1 with
    | RouteChoice.retry =>
      match orch_loop runner conv classify fuel (retry_once s1) with
      | some (fin, k) => some (fin, k + 1)
      | none => none
    | RouteChoice.terminate r => some ({ s1 with terminal_reason := some r }, 1)

/-- Invoking the compiled app on a configuration: Prepare once, then the
drive loop.  Fuel `max_retries + 2` always suffices (the router terminates
no later than `attempt = max_retries + 1`). -/
def run_ui_app (runner : Nat → String) (conv : String → List TestOutcome)
    (classify : String → String → Verdict × String) (cfg : UIConfig) :
    Option (RunState × Nat) :=
  orch_loop runner conv classify (cfg.max_retries + 2) (prepare_config cfg)

/-- The state at the top of the loop after `k` rejected attempts (attempt
`k + 1` is the next one to execute). -/
def run_after (runner : Nat → String) (conv : String → List TestOutcome)
    (classify : String → String → Verdict × String) (cfg : UIConfig) : Nat → RunState
  | 0 => prepare_config cfg
  | k + 1 => retry_once (run_attempt runner conv classify (run_after runner conv classify cfg k))

/-- Constant runner used by the concrete witnesses. -/
def wRunner : Nat → String := fun _ => "raw-output"

/-- Parser whose every attempt yields one failing test. -/
def wConvFail : String → List TestOutcome :=
  fun _ => [⟨"login test", TCStatus.fail, "assertion failed"⟩]

/-- Classifier marking every failure a likely regression. -/
def wClassifyReg : String → String → Verdict × String :=
  fun _ _ => (Verdict.likely_regression, "looks real")

/-- Concrete configuration with a retry budget of 2. -/
def wCfg : UIConfig := ⟨"smoke", "staging", 2⟩

/-- Parser whose every attempt yields one passing test. -/
def wConvPass : String → List TestOutcome :=
  fun _ => [⟨"login test", TCStatus.pass, "ok"⟩]

/-- Concrete post-Approve state used by the router witness: rejected
decision, attempt 1, budget 0. -/
def wStateR : RunState :=
  ⟨⟨"smoke", "staging", 0⟩, 1, some "raw-output",
    some [⟨"login test", TCStatus.fail, "assertion failed"⟩],
    some [⟨"login test", Verdict.likely_regression, "looks real"⟩],
    some ⟨false, "auto"⟩, none⟩

/-- The file `testcase_agent.py` saves raw model output at
`OUT_DIR / "last_raw.json"`; its repository-root-relative path. -/
def LAST_RAW_JSON : String := "outputs/testcase_generated/last_raw.json"

/-- The corrective line appended to the raw model output before the single
parse retry (`testcase_agent.py` lines 57–59). -/
def NUDGE_REMINDER : String :=
  "\n\nREMINDER: Return a pure JSON array only, matching the schema."

/-- The JSON-recovery path of `main` (`testcase_agent.py` lines 50–69):
parse the raw output; on failure append the reminder and parse once more;
on a second failure raise a `RuntimeError` naming the saved raw payload and
the original error.  `parse_fn` stands for the external
`parse_json_safely`; the second component records every input `parse_fn`
was invoked on, in order. -/
def parse_with_nudge {α : Type} (parse_fn : String → Except String α) (raw : String) :
    Except String α × List String :=
  match parse_fn raw with
  | Except.ok cases => (Except.ok cases, [raw])
  | Except.error e =>
    match parse_fn (raw ++ NUDGE_REMINDER) with
    | Except.ok cases => (Except.ok cases, [raw, raw ++ NUDGE_REMINDER])
    | Except.error _ =>
      (Except.error
          ("Could not parse model output as JSON. See " ++ LAST_RAW_JSON ++ ".\nError: " ++ e),
        [raw, raw ++ NUDGE_REMINDER])

/-- A parse function that always fails, for the C7 witness. -/
def wBadParse : String → Except String Nat := fun _ => Except.error "not json"

/-- The regex character class `[a-z0-9]` of `_norm` (`testcase_agent.py`
line 34). -/
def isAlnumLower (c : Char) : Bool :=
  ('a' ≤ c && c ≤ 'z') || ('0' ≤ c && c ≤ '9')

/-- Python whitespace (`str.strip` / regex `\s`), ASCII range. -/
def isPySpace (c : Char) : Bool :=
  c == ' ' || c == '\t' || c == '\n' || c == '\r' || c == Char.ofNat 11 || c == Char.ofNat 12

/-- Python `str.strip()`: drop whitespace from both ends. -/
def pyStrip (l : List Char) : List Char :=
  ((l.dropWhile isPySpace).reverse.dropWhile isPySpace).reverse

/-- `re.sub(r"[^a-z0-9]+", " ", s)` as a left-to-right scan: the flag says
whether we are inside a run of non-`[a-z0-9]` characters, each maximal run
being replaced by a single space. -/
def subNonAlnumAux : Bool → List Char → List Char
  | _, [] => []
  | inRun, c :: cs =>
    if isAlnumLower c then c :: subNonAlnumAux false cs
    else if inRun then subNonAlnumAux true cs
    else ' ' :: subNonAlnumAux true cs

/-- `re.sub(r"[^a-z0-9]+", " ", s)`. -/
def subNonAlnum (l : List Char) : List Char := subNonAlnumAux false l

/-- `re.sub(r"\s+", " ", s)` as the analogous scan over whitespace runs. -/
def subSpacesAux : Bool → List Char → List Char
  | _, [] => []
  | inRun, c :: cs =>
    if isPySpace c then
      if inRun then subSpacesAux true cs else ' ' :: subSpacesAux true cs
    else c :: subSpacesAux false cs

/-- `re.sub(r"\s+", " ", s)`. -/
def subSpaces (l : List Char) : List Char := subSpacesAux false l

/-- The body of `_norm` on character lists:
`s = title.lower().strip()`, then `re.sub(r"[^a-z0-9]+", " ", s)`, then
`re.sub(r"\s+", " ", s).strip()` (`testcase_agent.py` lines 33–36).
Python's Unicode `str.lower()` is modelled by `Char.toLower` (ASCII); any
character the two disagree on is outside `[a-z0-9]` and is rewritten to a
space by the following substitution either way. -/
def normChars (l : List Char) : List Char :=
  pyStrip (subSpaces (subNonAlnum (pyStrip (l.map Char.toLower))))

/-- `_norm` from `testcase_agent.py` lines 25–36: normalize a title for
stable dedupe; `none` plays Python's `None` in `(title or "")`. -/
def _norm (title : Option String) : String :=
  List.asString (normChars (title.getD "").toList)

/-- `res.get("id")` of a `create_case` response (`testcase_agent.py`
line 119). -/
structure CreateResponse where
  id : Option Int
deriving Repr

/-- One iteration of the upload loop (`testcase_agent.py` lines 109–131),
recorded per payload: whether `create_case` was invoked, the id appended to
`created_ids` (when the response carried one), and the outcome of the
seeding `add_result` call (when attempted). -/
structure UploadStep (π : Type) where
  payload : π
  invoked : Bool
  created : Option Int
  seeded : Option (Except String Unit)

/-- The mapping loop of `main` (`testcase_agent.py` lines 77–83): map each
case, appending the payload on success and skipping the case when
`map_case_to_testrail_payload` (the parameter `map_fn`) raises. -/
def map_payloads {κ π : Type} (map_fn : κ → Except String π) : List κ → List π
  | [] => []
  | c :: rest =>
    match map_fn c with
    | Except.ok p => p :: map_payloads map_fn rest
    | Except.error _ => map_payloads map_fn rest

/-- The existing-title set of `main` (`testcase_agent.py` lines 89–94):
normalized titles of `list_cases()` on success, the empty set when
`list_cases` raises.  The Python `set` is modelled as a list compared by
membership. -/
def existing_from {κ : Type} (caseTitle : κ → Option String)
    (lc : Except String (List κ)) : List String :=
  match lc with
  | Except.ok cases => cases.map (fun c => _norm (caseTitle c))
  | Except.error _ => []

/-- The dedupe-and-upload loop of `main` (`testcase_agent.py` lines
109–131): skip a payload whose normalized title is already in
`existing_titles`; otherwise call `create_case` — on an exception continue;
on a response with an id, append the id to `created_ids`, add the
normalized title to `existing_titles`, and attempt the seeding `add_result`
(its failure only logs a warning); on a response without an id continue
without recording.  The returned trace holds one `UploadStep` per payload,
in order. -/
def upload_cases {π : Type} (titleOf : π → Option String)
    (create_case : π → Except String CreateResponse)
    (add_result : Int → Nat → String → Except String Unit) :
    List String → List π → List (UploadStep π)
  | _, [] => []
  | existing, p :: rest =>
    let tn := _norm (titleOf p)
    if tn ∈ existing then
      ⟨p, false, none, none⟩ :: upload_cases titleOf create_case add_result existing rest
    else
      match create_case p with
      | Except.error _ =>
        ⟨p, true, none, none⟩ :: upload_cases titleOf create_case add_result existing rest
      | Except.ok res =>
        match res.id with
        | some cid =>
          ⟨p, true, some cid, some (add_result cid 3 "Seeded by agent on create")⟩ ::
            upload_cases titleOf create_case add_result (tn :: existing) rest
        | none =>
          ⟨p, true, none, none⟩ :: upload_cases titleOf create_case add_result existing rest

/-- `created_ids` accumulated by the loop (`testcase_agent.py` line 121). -/
def created_ids {π : Type} (trace : List (UploadStep π)) : List Int :=
  trace.filterMap UploadStep.created

/-- Create function that always succeeds with id 1, for witnesses. -/
def wCreateOk : String → Except String CreateResponse := fun _ => Except.ok ⟨some 1⟩

/-- Seeding function that always succeeds, for witnesses. -/
def wAddOk : Int → Nat → String → Except String Unit := fun _ _ _ => Except.ok ()

/-- Mapping function failing on case `0`, for the C10 witness. -/
def wMapFn : Nat → Except String String :=
  fun n => if n = 0 then Except.error "bad case" else Except.ok "mapped"

/-- Create function that always raises, for the C10 witness. -/
def wCreateErr : String → Except String CreateResponse := fun _ => Except.error "HTTP 500"

/-- Seeding function that always raises, for the C10 witness. -/
def wAddErr : Int → Nat → String → Except String Unit := fun _ _ _ => Except.error "seed failed"

/-- Title accessor for the C10 witness's case type. -/
def wCaseTitle : Nat → Option String := fun _ => none

theorem allEdges_build_ui_app :
    allEdges build_ui_app =
      [("prepare", "run"), ("run", "parse"), ("parse", "llm_triage"),
       ("llm_triage", "approve"), ("retry", "run"),
       ("approve", "retry"), ("approve", ENDNode)] := rfl

theorem uiRank_lt_of_edge (a b : String) (h : uiEdge a b = true)
    (hne : (a == "retry" && b == "run") = false) : uiRank a < uiRank b := by
  have hmem : (a, b) ∈ allEdges build_ui_app := by
    rw [uiEdge] at h
    rcases List.contains_iff_exists_mem_beq.mp h with ⟨e, he, hbeq⟩
    have heq : (a, b) = e := eq_of_beq hbeq
    rwa [heq]
  rw [allEdges_build_ui_app] at hmem
  simp only [List.mem_cons, List.not_mem_nil, or_false, Prod.mk.injEq] at hmem
  rcases hmem with ⟨ha, hb⟩ | ⟨ha, hb⟩ | ⟨ha, hb⟩ | ⟨ha, hb⟩ | ⟨ha, hb⟩ | ⟨ha, hb⟩ | ⟨ha, hb⟩ <;>
    subst ha <;> subst hb <;>
    first
      | decide
      | simp at hne

theorem uiChain_rank_lt :
    ∀ (l : List String) (a b : String), uiChain a l = true →
      hitsRetryRun a l = false → l.getLast? = some b → uiRank a < uiRank b := by
  intro l
  induction l with
  | nil => intro a b _ _ hlast; simp at hlast
  | cons c rest ih =>
    intro a b hc hh hlast
    rw [uiChain] at hc
    rw [hitsRetryRun] at hh
    simp only [Bool.and_eq_true] at hc
    obtain ⟨hedge, hchain⟩ := hc
    simp only [Bool.or_eq_false_iff] at hh
    obtain ⟨hstep, hhrest⟩ := hh
    have hac : uiRank a < uiRank c := uiRank_lt_of_edge a c hedge hstep
    cases rest with
    | nil =>
      simp at hlast
      subst hlast
      exact hac
    | cons d rest' =>
      have hlast' : (d :: rest').getLast? = some b := by
        rw [List.getLast?_cons_cons] at hlast
        exact hlast
      exact Nat.lt_trans hac (ih c b hchain hhrest hlast')

theorem uiChainNoBack_chain :
    ∀ (l : List String) (a : String), uiChainNoBack a l = true →
      uiChain a l = true ∧ hitsRetryRun a l = false := by
  intro l
  induction l with
  | nil => intro a _; exact ⟨rfl, rfl⟩
  | cons c rest ih =>
    intro a h
    rw [uiChainNoBack] at h
    simp only [Bool.and_eq_true] at h
    obtain ⟨hedge, hchain⟩ := h
    rw [uiEdgeNoBack] at hedge
    simp only [Bool.and_eq_true, Bool.not_eq_true'] at hedge
    obtain ⟨he, hnb⟩ := hedge
    obtain ⟨ihc, ihh⟩ := ih c hchain
    refine ⟨?_, ?_⟩
    · rw [uiChain]
      simp only [Bool.and_eq_true]
      exact ⟨he, ihc⟩
    · rw [hitsRetryRun]
      simp only [Bool.or_eq_false_iff]
      exact ⟨hnb, ihh⟩

/-- **C4.** The compiled orchestration graph has exactly the wired topology:
entry point `"prepare"`; unconditional edges `prepare → run → parse →
llm_triage → approve` plus the single back edge `retry → run` (so `retry`'s
only outgoing edge returns to the execute node `"run"`); and the single
conditional branch sits after `"approve"`, routed by `decide_after_approval`
with `"retry" ↦ retry` and `"end" ↦ END`. -/
theorem ui_graph_topology :
    build_ui_app.entry = some "prepare" ∧
    build_ui_app.nodes = ["prepare", "run", "parse", "llm_triage", "approve", "retry"] ∧
    succs build_ui_app "prepare" = ["run"] ∧
    succs build_ui_app "run" = ["parse"] ∧
    succs build_ui_app "parse" = ["llm_triage"] ∧
    succs build_ui_app "llm_triage" = ["approve"] ∧
    succs build_ui_app "approve" = [] ∧
    succs build_ui_app "retry" = ["run"] ∧
    build_ui_app.condEdges = [("approve", [("retry", "retry"), ("end", ENDNode)])] ∧
    build_ui_app.edges =
      [("prepare", "run"), ("run", "parse"), ("parse", "llm_triage"),
       ("llm_triage", "approve"), ("retry", "run")] := by
  refine ⟨rfl, rfl, ?_, ?_, ?_, ?_, ?_, ?_, rfl, rfl⟩ <;> rfl

/-- **C5.** The back edge `retry → run` is the sole cycle-forming edge of the
compiled graph: every closed walk (`a :: l` with last node `a`, at least one
step) traverses `retry → run`, and no closed walk exists once that edge is
removed (the remaining graph is acyclic). -/
theorem ui_graph_sole_cycle_edge (a : String) (l : List String)
    (hc : uiChain a l = true) (hl : l.getLast? = some a) :
    hitsRetryRun a l = true ∧ uiChainNoBack a l = false := by
  have hhit : hitsRetryRun a l = true := by
    cases hh : hitsRetryRun a l with
    | true => rfl
    | false =>
      exfalso
      exact Nat.lt_irrefl (uiRank a) (uiChain_rank_lt l a a hc hh hl)
  refine ⟨hhit, ?_⟩
  cases hnb : uiChainNoBack a l with
  | false => rfl
  | true =>
    exfalso
    rcases uiChainNoBack_chain l a hnb with ⟨_, hh⟩
    rw [hhit] at hh
    exact Bool.true_eq_false.mp hh

/-- Witness for C5: the concrete cycle `run → parse → llm_triage → approve →
retry → run` traverses the back edge and is not a walk of the reduced graph. -/
theorem ui_graph_sole_cycle_edge_witness :
    (uiChain "run" ["parse", "llm_triage", "approve", "retry", "run"] = true ∧
      ["parse", "llm_triage", "approve", "retry", "run"].getLast? = some "run") ∧
    (hitsRetryRun "run" ["parse", "llm_triage", "approve", "retry", "run"] = true ∧
      uiChainNoBack "run" ["parse", "llm_triage", "approve", "retry", "run"] = false) :=
  ⟨⟨rfl, rfl⟩,
    ui_graph_sole_cycle_edge "run" ["parse", "llm_triage", "approve", "retry", "run"] rfl rfl⟩

theorem run_attempt_attempt (runner : Nat → String) (conv : String → List TestOutcome)
    (classify : String → String → Verdict × String) (s : RunState) :
    (run_attempt runner conv classify s).attempt = s.attempt + 1 := rfl

theorem run_attempt_config (runner : Nat → String) (conv : String → List TestOutcome)
    (classify : String → String → Verdict × String) (s : RunState) :
    (run_attempt runner conv classify s).config = s.config := rfl

theorem run_after_attempt (runner : Nat → String) (conv : String → List TestOutcome)
    (classify : String → String → Verdict × String) (cfg : UIConfig) :
    ∀ k, (run_after runner conv classify cfg k).attempt = k := by
  intro k
  induction k with
  | zero => rfl
  | succ n ih =>
    show (run_attempt runner conv classify (run_after runner conv classify cfg n)).attempt = n + 1
    rw [run_attempt_attempt, ih]

theorem run_after_config (runner : Nat → String) (conv : String → List TestOutcome)
    (classify : String → String → Verdict × String) (cfg : UIConfig) :
    ∀ k, (run_after runner conv classify cfg k).config = cfg := by
  intro k
  induction k with
  | zero => rfl
  | succ n ih =>
    show (run_attempt runner conv classify (run_after runner conv classify cfg n)).config = cfg
    rw [run_attempt_config, ih]

theorem router_of_accept (s : RunState) (h : acceptOf s = true) :
    decide_after_approval s =
      RouteChoice.terminate
        (if (s.triage.getD []).isEmpty then TerminalReason.all_passed
         else TerminalReason.approved_after_retry) := by
  rw [decide_after_approval, h]
  simp

theorem router_of_reject_exhausted (s : RunState) (h : acceptOf s = false)
    (hb : s.config.max_retries + 1 ≤ s.attempt) :
    decide_after_approval s = RouteChoice.terminate TerminalReason.retries_exhausted := by
  rw [decide_after_approval, h]
  simp [hb]

theorem router_of_reject_budget (s : RunState) (h : acceptOf s = false)
    (hb : s.attempt < s.config.max_retries + 1) :
    decide_after_approval s = RouteChoice.retry := by
  rw [decide_after_approval, h]
  simp [Nat.not_le_of_lt hb]

theorem orch_loop_step (runner : Nat → String) (conv : String → List TestOutcome)
    (classify : String → String → Verdict × String) (fuel : Nat) (s : RunState) :
    orch_loop runner conv classify (fuel + 1) s =
      match decide_after_approval (run_attempt runner conv classify s) with
      | RouteChoice.retry =>
        match orch_loop runner conv classify fuel (retry_once (run_attempt runner conv classify s)) with
        | some (fin, k) => some (fin, k + 1)
        | none => none
      | RouteChoice.terminate r =>
        some ({ run_attempt runner conv classify s with terminal_reason := some r }, 1) := rfl

theorem orch_loop_rejected (runner : Nat → String) (conv : String → List TestOutcome)
    (classify : String → String → Verdict × String) (cfg : UIConfig)
    (H : ∀ k, k ≤ cfg.max_retries →
      acceptOf (run_attempt runner conv classify (run_after runner conv classify cfg k)) = false) :
    ∀ d k fuel, k + d = cfg.max_retries → d + 1 ≤ fuel →
      ∃ fin, orch_loop runner conv classify fuel (run_after runner conv classify cfg k) =
          some (fin, d + 1) ∧
        fin.attempt = cfg.max_retries + 1 ∧
        fin.config = cfg ∧
        fin.terminal_reason = some TerminalReason.retries_exhausted := by
  intro d
  induction d with
  | zero =>
    intro k fuel hk hf
    cases fuel with
    | zero => exact absurd hf (by omega)
    | succ f =>
      have ha : acceptOf (run_attempt runner conv classify (run_after runner conv classify cfg k)) = false :=
        H k (by omega)
      have hat : (run_attempt runner conv classify (run_after runner conv classify cfg k)).attempt = k + 1 := by
        rw [run_attempt_attempt, run_after_attempt]
      have hcf : (run_attempt runner conv classify (run_after runner conv classify cfg k)).config = cfg := by
        rw [run_attempt_config, run_after_config]
      have hroute : decide_after_approval (run_attempt runner conv classify (run_after runner conv classify cfg k)) =
          RouteChoice.terminate TerminalReason.retries_exhausted := by
        apply router_of_reject_exhausted _ ha
        rw [hat, hcf]
        omega
      refine ⟨{ run_attempt runner conv classify (run_after runner conv classify cfg k) with
                  terminal_reason := some TerminalReason.retries_exhausted }, ?_, ?_, ?_, rfl⟩
      · rw [orch_loop_step, hroute]
      · show (run_attempt runner conv classify (run_after runner conv classify cfg k)).attempt =
          cfg.max_retries + 1
        rw [hat]
        omega
      · show (run_attempt runner conv classify (run_after runner conv classify cfg k)).config = cfg
        exact hcf
  | succ d ih =>
    intro k fuel hk hf
    cases fuel with
    | zero => exact absurd hf (by omega)
    | succ f =>
      have ha : acceptOf (run_attempt runner conv classify (run_after runner conv classify cfg k)) = false :=
        H k (by omega)
      have hat : (run_attempt runner conv classify (run_after runner conv classify cfg k)).attempt = k + 1 := by
        rw [run_attempt_attempt, run_after_attempt]
      have hcf : (run_attempt runner conv classify (run_after runner conv classify cfg k)).config = cfg := by
        rw [run_attempt_config, run_after_config]
      have hroute : decide_after_approval (run_attempt runner conv classify (run_after runner conv classify cfg k)) =
          RouteChoice.retry := by
        apply router_of_reject_budget _ ha
        rw [hat, hcf]
        omega
      have hnext : retry_once (run_attempt runner conv classify (run_after runner conv classify cfg k)) =
          run_after runner conv classify cfg (k + 1) := rfl
      obtain ⟨fin, hloop, hfa, hfc, hft⟩ := ih (k + 1) f (by omega) (by omega)
      refine ⟨fin, ?_, hfa, hfc, hft⟩
      rw [orch_loop_step, hroute, hnext, hloop]

/-- **C1.** With `max_retries = N`, a run in which Approve never produces
`decision.accept` runs the Execute step exactly `N + 1` times, terminates,
and ends with `terminal_reason = retries_exhausted` (so the retry back edge
is traversed exactly `N` times). -/
theorem ui_run_retries_exhausted (runner : Nat → String) (conv : String → List TestOutcome)
    (classify : String → String → Verdict × String) (cfg : UIConfig)
    (H : ∀ k, k ≤ cfg.max_retries →
      acceptOf (run_attempt runner conv classify (run_after runner conv classify cfg k)) = false) :
    ∃ fin, run_ui_app runner conv classify cfg = some (fin, cfg.max_retries + 1) ∧
      fin.attempt = cfg.max_retries + 1 ∧
      fin.terminal_reason = some TerminalReason.retries_exhausted := by
  obtain ⟨fin, hloop, hfa, _, hft⟩ :=
    orch_loop_rejected runner conv classify cfg H cfg.max_retries 0 (cfg.max_retries + 2)
      (by omega) (by omega)
  exact ⟨fin, hloop, hfa, hft⟩

/-- Witness for C1: with `max_retries = 2` and an always-failing,
always-regression suite, the run executes 3 attempts and exhausts its
retries. -/
theorem ui_run_retries_exhausted_witness :
    (∀ k, k ≤ wCfg.max_retries →
      acceptOf (run_attempt wRunner wConvFail wClassifyReg
        (run_after wRunner wConvFail wClassifyReg wCfg k)) = false) ∧
    ∃ fin, run_ui_app wRunner wConvFail wClassifyReg wCfg = some (fin, wCfg.max_retries + 1) ∧
      fin.attempt = wCfg.max_retries + 1 ∧
      fin.terminal_reason = some TerminalReason.retries_exhausted :=
  ⟨fun _ _ => rfl,
    ui_run_retries_exhausted wRunner wConvFail wClassifyReg wCfg (fun _ _ => rfl)⟩

/-- **C2.** If Parse yields all-pass results on the first attempt, the run
terminates after exactly one Execute, whatever `max_retries` is; Triage
still ran and set `triage` to the empty list, Approve auto-accepted the
empty triage, and the terminal reason is `all_passed`. -/
theorem ui_run_all_passed_first_attempt (runner : Nat → String)
    (conv : String → List TestOutcome) (classify : String → String → Verdict × String)
    (cfg : UIConfig) (H : ∀ t ∈ conv (runner 1), t.status = TCStatus.pass) :
    ∃ fin, run_ui_app runner conv classify cfg = some (fin, 1) ∧
      fin.attempt = 1 ∧
      fin.triage = some [] ∧
      fin.decision = some ⟨true, "auto"⟩ ∧
      fin.terminal_reason = some TerminalReason.all_passed := by
  have hfilter : (conv (runner 1)).filter (fun t => t.status != TCStatus.pass) = [] := by
    rw [List.filter_eq_nil_iff]
    intro t ht
    rw [H t ht]
    simp
  have htr : (run_attempt runner conv classify (prepare_config cfg)).triage =
      some (((conv (runner 1)).filter (fun t => t.status != TCStatus.pass)).map
        (fun t => TriageEntry.mk t.name (classify t.name t.detail).1
          (classify t.name t.detail).2)) := rfl
  rw [hfilter] at htr
  simp only [List.map_nil] at htr
  have hdec : (run_attempt runner conv classify (prepare_config cfg)).decision =
      some ⟨(((conv (runner 1)).filter (fun t => t.status != TCStatus.pass)).map
          (fun t => TriageEntry.mk t.name (classify t.name t.detail).1
            (classify t.name t.detail).2)).isEmpty ||
        (((conv (runner 1)).filter (fun t => t.status != TCStatus.pass)).map
          (fun t => TriageEntry.mk t.name (classify t.name t.detail).1
            (classify t.name t.detail).2)).all (fun e => e.verdict == Verdict.likely_flaky),
        "auto"⟩ := rfl
  rw [hfilter] at hdec
  simp only [List.map_nil, List.isEmpty_nil, List.all_nil, Bool.true_or] at hdec
  have hacc : acceptOf (run_attempt runner conv classify (prepare_config cfg)) = true := by
    rw [acceptOf, hdec]
    rfl
  have hroute : decide_after_approval (run_attempt runner conv classify (prepare_config cfg)) =
      RouteChoice.terminate TerminalReason.all_passed := by
    have h := router_of_accept _ hacc
    rw [htr] at h
    simpa using h
  have hfuel : cfg.max_retries + 2 = (cfg.max_retries + 1) + 1 := rfl
  refine ⟨{ run_attempt runner conv classify (prepare_config cfg) with
              terminal_reason := some TerminalReason.all_passed }, ?_, rfl, htr, hdec, rfl⟩
  rw [run_ui_app, hfuel, orch_loop_step, hroute]

/-- Witness for C2: an all-pass first attempt stops a budget-2 run after one
execution with `all_passed`. -/
theorem ui_run_all_passed_first_attempt_witness :
    (∀ t ∈ wConvPass (wRunner 1), t.status = TCStatus.pass) ∧
    ∃ fin, run_ui_app wRunner wConvPass wClassifyReg wCfg = some (fin, 1) ∧
      fin.attempt = 1 ∧
      fin.triage = some [] ∧
      fin.decision = some ⟨true, "auto"⟩ ∧
      fin.terminal_reason = some TerminalReason.all_passed :=
  ⟨fun t ht => by
      rw [List.mem_singleton.mp ht],
    ui_run_all_passed_first_attempt wRunner wConvPass wClassifyReg wCfg
      (fun t ht => by rw [List.mem_singleton.mp ht])⟩

/-- **C3.** The router `decide_after_approval` is a pure total Lean function
of the state; on any state carrying a decision it returns one of the two
selections `retry`/`terminate`, and it follows the specified clause order:
accept ⇒ terminate (`all_passed` on empty triage, else
`approved_after_retry`); otherwise `attempt ≥ max_retries + 1` ⇒ terminate
with `retries_exhausted`; otherwise retry. -/
theorem router_total_spec (s : RunState) (d : Decision) (h : s.decision = some d) :
    (decide_after_approval s = RouteChoice.retry ∨
      ∃ r, decide_after_approval s = RouteChoice.terminate r) ∧
    (d.accept = true →
      decide_after_approval s =
        RouteChoice.terminate
          (if (s.triage.getD []).isEmpty then TerminalReason.all_passed
           else TerminalReason.approved_after_retry)) ∧
    (d.accept = false → s.config.max_retries + 1 ≤ s.attempt →
      decide_after_approval s = RouteChoice.terminate TerminalReason.retries_exhausted) ∧
    (d.accept = false → s.attempt < s.config.max_retries + 1 →
      decide_after_approval s = RouteChoice.retry) := by
  have hka : acceptOf s = d.accept := by
    rw [acceptOf, h]
    rfl
  refine ⟨?_, ?_, ?_, ?_⟩
  · cases hdec : decide_after_approval s with
    | retry => exact Or.inl rfl
    | terminate r => exact Or.inr ⟨r, rfl⟩
  · intro hacc
    exact router_of_accept s (by rw [hka, hacc])
  · intro hacc hb
    exact router_of_reject_exhausted s (by rw [hka, hacc]) hb
  · intro hacc hb
    exact router_of_reject_budget s (by rw [hka, hacc]) hb

/-- Witness for C3: the router applied to `wStateR` (rejected, budget
exhausted) follows the specified clauses. -/
theorem router_total_spec_witness :
    wStateR.decision = some ⟨false, "auto"⟩ ∧
    ((decide_after_approval wStateR = RouteChoice.retry ∨
      ∃ r, decide_after_approval wStateR = RouteChoice.terminate r) ∧
    ((false : Bool) = true →
      decide_after_approval wStateR =
        RouteChoice.terminate
          (if (wStateR.triage.getD []).isEmpty then TerminalReason.all_passed
           else TerminalReason.approved_after_retry)) ∧
    ((false : Bool) = false → wStateR.config.max_retries + 1 ≤ wStateR.attempt →
      decide_after_approval wStateR = RouteChoice.terminate TerminalReason.retries_exhausted) ∧
    ((false : Bool) = false → wStateR.attempt < wStateR.config.max_retries + 1 →
      decide_after_approval wStateR = RouteChoice.retry)) :=
  ⟨rfl, router_total_spec wStateR ⟨false, "auto"⟩ rfl⟩

/-- **C6.** One pass through Retry after a completed attempt clears
`raw_output`, `results`, `triage` and `decision`, while `config`, the
already-incremented `attempt`, and `terminal_reason` are untouched. -/
theorem retry_once_frame (runner : Nat → String) (conv : String → List TestOutcome)
    (classify : String → String → Verdict × String) (s : RunState) :
    (retry_once (run_attempt runner conv classify s)).raw_output = none ∧
    (retry_once (run_attempt runner conv classify s)).results = none ∧
    (retry_once (run_attempt runner conv classify s)).triage = none ∧
    (retry_once (run_attempt runner conv classify s)).decision = none ∧
    (retry_once (run_attempt runner conv classify s)).config = s.config ∧
    (retry_once (run_attempt runner conv classify s)).attempt =
      (run_attempt runner conv classify s).attempt ∧
    (run_attempt runner conv classify s).attempt = s.attempt + 1 ∧
    (retry_once (run_attempt runner conv classify s)).terminal_reason =
      (run_attempt runner conv classify s).terminal_reason :=
  ⟨rfl, rfl, rfl, rfl, rfl, rfl, rfl, rfl⟩

/-- **C7.** When the first parse fails, exactly one corrective
transformation (appending the reminder) is applied and the parse is retried
exactly once — the invocation trace is `[raw, raw ++ reminder]` in both
outcomes, so no further retry happens; if the retry also fails the result
is an error whose message points at the saved raw payload file and carries
the first error. -/
theorem parse_retry_once_spec {α : Type} (parse_fn : String → Except String α)
    (raw e1 : String) (h1 : parse_fn raw = Except.error e1) :
    (∀ cs, parse_fn (raw ++ NUDGE_REMINDER) = Except.ok cs →
      parse_with_nudge parse_fn raw = (Except.ok cs, [raw, raw ++ NUDGE_REMINDER])) ∧
    (∀ e2, parse_fn (raw ++ NUDGE_REMINDER) = Except.error e2 →
      parse_with_nudge parse_fn raw =
        (Except.error
            ("Could not parse model output as JSON. See " ++ LAST_RAW_JSON ++
              ".\nError: " ++ e1),
          [raw, raw ++ NUDGE_REMINDER])) := by
  constructor
  · intro cs h2
    simp [parse_with_nudge, h1, h2]
  · intro e2 h2
    simp [parse_with_nudge, h1, h2]

/-- Witness for C7: a doubly-failing parse yields the pointing error message
after exactly the two recorded attempts. -/
theorem parse_retry_once_spec_witness :
    (wBadParse "oops" = Except.error "not json") ∧
    parse_with_nudge wBadParse "oops" =
      (Except.error
          ("Could not parse model output as JSON. See " ++ LAST_RAW_JSON ++
            ".\nError: " ++ "not json"),
        ["oops", "oops" ++ NUDGE_REMINDER]) :=
  ⟨rfl, (parse_retry_once_spec wBadParse "oops" "not json" rfl).2 "not json" rfl⟩

theorem char_le_toNat {a c : Char} (h : a ≤ c) : a.toNat ≤ c.toNat := by
  simp only [Char.le_def, UInt32.le_def, BitVec.le_def] at h
  exact h

theorem toLower_fixed (c : Char) (h : isAlnumLower c = true ∨ c = ' ') : c.toLower = c := by
  rw [Char.toLower]
  have hcond : ¬(c.toNat ≥ 65 ∧ c.toNat ≤ 90) := by
    rcases h with h | h
    · rw [isAlnumLower] at h
      simp only [Bool.or_eq_true, Bool.and_eq_true, decide_eq_true_eq] at h
      rcases h with ⟨h1, h2⟩ | ⟨h1, h2⟩ <;>
        [(have n1 := char_le_toNat h1; have n2 := char_le_toNat h2;
          have e1 : Char.toNat 'a' = 97 := rfl;
          have e2 : Char.toNat 'z' = 122 := rfl;
          rw [e1] at n1; rw [e2] at n2; omega);
         (have n1 := char_le_toNat h1; have n2 := char_le_toNat h2;
          have e1 : Char.toNat '0' = 48 := rfl;
          have e2 : Char.toNat '9' = 57 := rfl;
          rw [e1] at n1; rw [e2] at n2; omega)]
    · subst h
      decide
  rw [if_neg hcond]

theorem ne_space_of_alnum {c : Char} (h : isAlnumLower c = true) : c ≠ ' ' := by
  intro hc
  rw [hc] at h
  exact absurd h (by decide)

theorem pyspace_false_of_alnum {c : Char} (h : isAlnumLower c = true) : isPySpace c = false := by
  cases hp : isPySpace c with
  | false => rfl
  | true =>
    exfalso
    rw [isPySpace] at hp
    simp only [Bool.or_eq_true, beq_iff_eq] at hp
    rcases hp with ((((h1 | h1) | h1) | h1) | h1) | h1 <;> subst h1 <;>
      exact absurd h (by decide)

theorem subNonAlnumAux_mem :
    ∀ (l : List Char) (b : Bool) (c : Char),
      c ∈ subNonAlnumAux b l → isAlnumLower c = true ∨ c = ' ' := by
  intro l
  induction l with
  | nil =>
    intro b c h
    rw [subNonAlnumAux] at h
    exact absurd h (List.not_mem_nil c)
  | cons a cs ih =>
    intro b c h
    rw [subNonAlnumAux] at h
    cases ha : isAlnumLower a with
    | true =>
      rw [ha] at h
      simp only [if_true] at h
      rcases List.mem_cons.mp h with hc | hc
      · subst hc
        exact Or.inl ha
      · exact ih false c hc
    | false =>
      rw [ha] at h
      simp only [Bool.false_eq_true, if_false] at h
      cases b with
      | true =>
        simp only [if_true] at h
        exact ih true c h
      | false =>
        simp only [Bool.false_eq_true, if_false] at h
        rcases List.mem_cons.mp h with hc | hc
        · subst hc
          exact Or.inr rfl
        · exact ih true c hc

theorem subNonAlnumAux_true_head :
    ∀ (l : List Char) (c : Char),
      (subNonAlnumAux true l).head? = some c → isAlnumLower c = true := by
  intro l
  induction l with
  | nil =>
    intro c h
    rw [subNonAlnumAux] at h
    exact absurd h (by simp)
  | cons a cs ih =>
    intro c h
    rw [subNonAlnumAux] at h
    cases ha : isAlnumLower a with
    | true =>
      rw [ha] at h
      simp only [if_true, List.head?_cons, Option.some.injEq] at h
      subst h
      exact ha
    | false =>
      rw [ha] at h
      simp only [Bool.false_eq_true, if_false, if_true] at h
      exact ih c h

theorem subNonAlnumAux_chain :
    ∀ (l : List Char) (b : Bool),
      (subNonAlnumAux b l).Chain' (fun x y => ¬(x = ' ' ∧ y = ' ')) := by
  intro l
  induction l with
  | nil =>
    intro b
    rw [subNonAlnumAux]
    exact List.chain'_nil
  | cons a cs ih =>
    intro b
    rw [subNonAlnumAux]
    cases ha : isAlnumLower a with
    | true =>
      simp only [if_true]
      rw [List.chain'_cons']
      refine ⟨?_, ih false⟩
      intro y _ hxy
      exact absurd hxy.1 (ne_space_of_alnum ha)
    | false =>
      simp only [Bool.false_eq_true, if_false]
      cases b with
      | true =>
        simp only [if_true]
        exact ih true
      | false =>
        simp only [Bool.false_eq_true, if_false]
        rw [List.chain'_cons']
        refine ⟨?_, ih true⟩
        intro y hy hxy
        have halnum : isAlnumLower y = true := subNonAlnumAux_true_head cs y hy
        exact absurd hxy.2 (ne_space_of_alnum halnum)

theorem subNonAlnumAux_id :
    ∀ (l : List Char),
      (∀ c ∈ l, isAlnumLower c = true ∨ c = ' ') →
      l.Chain' (fun x y => ¬(x = ' ' ∧ y = ' ')) →
      subNonAlnumAux false l = l ∧ (l.head? ≠ some ' ' → subNonAlnumAux true l = l) := by
  intro l
  induction l with
  | nil => intro _ _; exact ⟨rfl, fun _ => rfl⟩
  | cons a cs ih =>
    intro hmem hch
    obtain ⟨hhd, hch'⟩ := List.chain'_cons'.mp hch
    have hmem' : ∀ c ∈ cs, isAlnumLower c = true ∨ c = ' ' :=
      fun c hc => hmem c (List.mem_cons_of_mem a hc)
    obtain ⟨ihf, iht⟩ := ih hmem' hch'
    rcases hmem a (List.mem_cons_self a cs) with ha | ha
    · constructor
      · rw [subNonAlnumAux, ha]
        simp only [if_true]
        rw [ihf]
      · intro _
        rw [subNonAlnumAux, ha]
        simp only [if_true]
        rw [ihf]
    · subst ha
      have hne : cs.head? ≠ some ' ' := by
        intro hc
        exact hhd ' ' (Option.mem_def.mpr hc) ⟨rfl, rfl⟩
      constructor
      · rw [subNonAlnumAux]
        simp only [show isAlnumLower ' ' = false from rfl, Bool.false_eq_true, if_false]
        rw [iht hne]
      · intro hcontra
        exact absurd rfl hcontra

theorem subSpacesAux_id :
    ∀ (l : List Char),
      (∀ c ∈ l, isAlnumLower c = true ∨ c = ' ') →
      l.Chain' (fun x y => ¬(x = ' ' ∧ y = ' ')) →
      subSpacesAux false l = l ∧ (l.head? ≠ some ' ' → subSpacesAux true l = l) := by
  intro l
  induction l with
  | nil => intro _ _; exact ⟨rfl, fun _ => rfl⟩
  | cons a cs ih =>
    intro hmem hch
    obtain ⟨hhd, hch'⟩ := List.chain'_cons'.mp hch
    have hmem' : ∀ c ∈ cs, isAlnumLower c = true ∨ c = ' ' :=
      fun c hc => hmem c (List.mem_cons_of_mem a hc)
    obtain ⟨ihf, iht⟩ := ih hmem' hch'
    rcases hmem a (List.mem_cons_self a cs) with ha | ha
    · have hps : isPySpace a = false := pyspace_false_of_alnum ha
      constructor
      · rw [subSpacesAux, hps]
        simp only [Bool.false_eq_true, if_false]
        rw [ihf]
      · intro _
        rw [subSpacesAux, hps]
        simp only [Bool.false_eq_true, if_false]
        rw [ihf]
    · subst ha
      have hne : cs.head? ≠ some ' ' := by
        intro hc
        exact hhd ' ' (Option.mem_def.mpr hc) ⟨rfl, rfl⟩
      constructor
      · rw [subSpacesAux]
        simp only [show isPySpace ' ' = true from rfl, if_true, Bool.false_eq_true, if_false]
        rw [iht hne]
      · intro hcontra
        exact absurd rfl hcontra

theorem dropWhile_head?_false {α : Type} (p : α → Bool) :
    ∀ (l : List α) (c : α), (l.dropWhile p).head? = some c → p c = false := by
  intro l
  induction l with
  | nil => intro c h; exact absurd h (by simp)
  | cons a cs ih =>
    intro c h
    rw [List.dropWhile_cons] at h
    cases hp : p a with
    | true =>
      rw [hp] at h
      simp only [if_true] at h
      exact ih c h
    | false =>
      rw [hp] at h
      simp only [Bool.false_eq_true, if_false, List.head?_cons, Option.some.injEq] at h
      subst h
      exact hp

theorem dropWhile_eq_self_of_head {α : Type} (p : α → Bool) (l : List α)
    (h : ∀ c, l.head? = some c → p c = false) : l.dropWhile p = l := by
  cases l with
  | nil => rfl
  | cons a cs =>
    rw [List.dropWhile_cons, h a rfl]
    simp

theorem suffix_getLast?_eq {α : Type} {X Y : List α} (h : X <:+ Y) (hne : X ≠ []) :
    X.getLast? = Y.getLast? := by
  obtain ⟨t, ht⟩ := h
  rw [← ht, List.getLast?_append]
  cases hx : X.getLast? with
  | none => exact absurd (List.getLast?_eq_none_iff.mp hx) hne
  | some a => rfl

theorem pyStrip_isInfix (l : List Char) : pyStrip l <:+: l := by
  rw [pyStrip]
  have h1 : ((l.dropWhile isPySpace).reverse.dropWhile isPySpace).reverse <+:
      l.dropWhile isPySpace := by
    conv_rhs => rw [← List.reverse_reverse (l.dropWhile isPySpace)]
    exact List.reverse_prefix.mpr (List.dropWhile_suffix isPySpace)
  exact h1.isInfix.trans (List.dropWhile_suffix isPySpace).isInfix

theorem pyStrip_getLast?_false (l : List Char) (c : Char)
    (h : (pyStrip l).getLast? = some c) : isPySpace c = false := by
  rw [pyStrip, List.getLast?_reverse] at h
  exact dropWhile_head?_false isPySpace _ c h

theorem pyStrip_head?_false (l : List Char) (c : Char)
    (h : (pyStrip l).head? = some c) : isPySpace c = false := by
  rw [pyStrip, List.head?_reverse] at h
  have hzne : (l.dropWhile isPySpace).reverse.dropWhile isPySpace ≠ [] := by
    intro hz
    rw [hz] at h
    exact absurd h (by simp)
  have heq := suffix_getLast?_eq (List.dropWhile_suffix isPySpace
    (l := (l.dropWhile isPySpace).reverse)) hzne
  rw [heq, List.getLast?_reverse] at h
  exact dropWhile_head?_false isPySpace _ c h

theorem pyStrip_id (l : List Char)
    (hmem : ∀ c ∈ l, isAlnumLower c = true ∨ c = ' ')
    (hh : l.head? ≠ some ' ') (hl : l.getLast? ≠ some ' ') : pyStrip l = l := by
  have hpy : ∀ c ∈ l, c ≠ ' ' → isPySpace c = false := by
    intro c hc hne
    rcases hmem c hc with h | h
    · exact pyspace_false_of_alnum h
    · exact absurd h hne
  have h1 : l.dropWhile isPySpace = l := by
    apply dropWhile_eq_self_of_head
    intro c hch
    obtain ⟨ys, hys⟩ := List.head?_eq_some_iff.mp hch
    refine hpy c (by rw [hys]; exact List.mem_cons_self c ys) ?_
    intro hc
    rw [hc] at hch
    exact hh hch
  have h2 : l.reverse.dropWhile isPySpace = l.reverse := by
    apply dropWhile_eq_self_of_head
    intro c hch
    rw [List.head?_reverse] at hch
    refine hpy c (List.mem_of_getLast?_eq_some hch) ?_
    intro hc
    rw [hc] at hch
    exact hl hch
  rw [pyStrip, h1, h2, List.reverse_reverse]

theorem map_toLower_fixed (l : List Char) (h : ∀ c ∈ l, isAlnumLower c = true ∨ c = ' ') :
    l.map Char.toLower = l := by
  induction l with
  | nil => rfl
  | cons a cs ih =>
    rw [List.map_cons, toLower_fixed a (h a (List.mem_cons_self a cs)),
      ih (fun c hc => h c (List.mem_cons_of_mem a hc))]

theorem normChars_eq_pyStrip (l : List Char) :
    normChars l = pyStrip (subNonAlnum (pyStrip (l.map Char.toLower))) := by
  rw [normChars]
  congr 1
  rw [subSpaces]
  exact (subSpacesAux_id (subNonAlnum (pyStrip (l.map Char.toLower)))
    (subNonAlnumAux_mem _ false) (subNonAlnumAux_chain _ false)).1

theorem normChars_mem (l : List Char) :
    ∀ c ∈ normChars l, isAlnumLower c = true ∨ c = ' ' := by
  rw [normChars_eq_pyStrip]
  intro c hc
  exact subNonAlnumAux_mem _ false c ((pyStrip_isInfix _).sublist.subset hc)

theorem normChars_chain (l : List Char) :
    (normChars l).Chain' (fun x y => ¬(x = ' ' ∧ y = ' ')) := by
  rw [normChars_eq_pyStrip]
  exact List.Chain'.infix (subNonAlnumAux_chain _ false) (pyStrip_isInfix _)

theorem normChars_head (l : List Char) : (normChars l).head? ≠ some ' ' := by
  rw [normChars_eq_pyStrip]
  intro h
  exact absurd (pyStrip_head?_false _ ' ' h) (by decide)

theorem normChars_getLast (l : List Char) : (normChars l).getLast? ≠ some ' ' := by
  rw [normChars_eq_pyStrip]
  intro h
  exact absurd (pyStrip_getLast?_false _ ' ' h) (by decide)

theorem normChars_fixed (l : List Char)
    (hmem : ∀ c ∈ l, isAlnumLower c = true ∨ c = ' ')
    (hch : l.Chain' (fun x y => ¬(x = ' ' ∧ y = ' ')))
    (hh : l.head? ≠ some ' ') (hl : l.getLast? ≠ some ' ') :
    normChars l = l := by
  rw [normChars, map_toLower_fixed l hmem, pyStrip_id l hmem hh hl, subNonAlnum,
    (subNonAlnumAux_id l hmem hch).1, subSpaces, (subSpacesAux_id l hmem hch).1,
    pyStrip_id l hmem hh hl]

/-- **C9.** `_norm` is total over `Option String` (it is a Lean function);
its output contains only lowercase ASCII letters, digits and spaces, with
no two adjacent spaces and no leading or trailing space (so dedupe is
insensitive to case, surrounding whitespace and non-alphanumeric
characters); and it is idempotent: `_norm` of its own output is that
output. -/
theorem norm_total_idempotent (t : Option String) :
    (∀ c ∈ (_norm t).toList, isAlnumLower c = true ∨ c = ' ') ∧
    (_norm t).toList.Chain' (fun x y => ¬(x = ' ' ∧ y = ' ')) ∧
    (_norm t).toList.head? ≠ some ' ' ∧
    (_norm t).toList.getLast? ≠ some ' ' ∧
    _norm (some (_norm t)) = _norm t := by
  refine ⟨normChars_mem _, normChars_chain _, normChars_head _, normChars_getLast _, ?_⟩
  have key : normChars ((_norm t).toList) = (_norm t).toList :=
    normChars_fixed _ (normChars_mem _) (normChars_chain _) (normChars_head _)
      (normChars_getLast _)
  calc
    _norm (some (_norm t)) = List.asString (normChars ((_norm t).toList)) := rfl
    _ = List.asString ((_norm t).toList) := by rw [key]
    _ = _norm t := rfl

theorem upload_cases_cons {π : Type} (titleOf : π → Option String)
    (create_case : π → Except String CreateResponse)
    (add_result : Int → Nat → String → Except String Unit)
    (existing : List String) (p : π) (rest : List π) :
    upload_cases titleOf create_case add_result existing (p :: rest) =
      if _norm (titleOf p) ∈ existing then
        ⟨p, false, none, none⟩ :: upload_cases titleOf create_case add_result existing rest
      else
        match create_case p with
        | Except.error _ =>
          ⟨p, true, none, none⟩ :: upload_cases titleOf create_case add_result existing rest
        | Except.ok res =>
          match res.id with
          | some cid =>
            ⟨p, true, some cid, some (add_result cid 3 "Seeded by agent on create")⟩ ::
              upload_cases titleOf create_case add_result (_norm (titleOf p) :: existing) rest
          | none =>
            ⟨p, true, none, none⟩ :: upload_cases titleOf create_case add_result existing rest := rfl

theorem upload_cases_skip {π : Type} (titleOf : π → Option String)
    (create_case : π → Except String CreateResponse)
    (add_result : Int → Nat → String → Except String Unit)
    (existing : List String) (p : π) (rest : List π)
    (hmem : _norm (titleOf p) ∈ existing) :
    upload_cases titleOf create_case add_result existing (p :: rest) =
      ⟨p, false, none, none⟩ :: upload_cases titleOf create_case add_result existing rest := by
  rw [upload_cases_cons, if_pos hmem]

theorem upload_cases_err {π : Type} (titleOf : π → Option String)
    (create_case : π → Except String CreateResponse)
    (add_result : Int → Nat → String → Except String Unit)
    (existing : List String) (p : π) (rest : List π) (e : String)
    (hmem : _norm (titleOf p) ∉ existing) (hcc : create_case p = Except.error e) :
    upload_cases titleOf create_case add_result existing (p :: rest) =
      ⟨p, true, none, none⟩ :: upload_cases titleOf create_case add_result existing rest := by
  rw [upload_cases_cons, if_neg hmem, hcc]

theorem upload_cases_created {π : Type} (titleOf : π → Option String)
    (create_case : π → Except String CreateResponse)
    (add_result : Int → Nat → String → Except String Unit)
    (existing : List String) (p : π) (rest : List π) (cid : Int)
    (hmem : _norm (titleOf p) ∉ existing) (hcc : create_case p = Except.ok ⟨some cid⟩) :
    upload_cases titleOf create_case add_result existing (p :: rest) =
      ⟨p, true, some cid, some (add_result cid 3 "Seeded by agent on create")⟩ ::
        upload_cases titleOf create_case add_result (_norm (titleOf p) :: existing) rest := by
  rw [upload_cases_cons, if_neg hmem, hcc]

theorem upload_cases_no_id {π : Type} (titleOf : π → Option String)
    (create_case : π → Except String CreateResponse)
    (add_result : Int → Nat → String → Except String Unit)
    (existing : List String) (p : π) (rest : List π)
    (hmem : _norm (titleOf p) ∉ existing) (hcc : create_case p = Except.ok ⟨none⟩) :
    upload_cases titleOf create_case add_result existing (p :: rest) =
      ⟨p, true, none, none⟩ :: upload_cases titleOf create_case add_result existing rest := by
  rw [upload_cases_cons, if_neg hmem, hcc]

theorem upload_invoked_aux {π : Type} (titleOf : π → Option String)
    (create_case : π → Except String CreateResponse)
    (add_result : Int → Nat → String → Except String Unit) :
    ∀ (pre : List π) (existing : List String) (p : π) (post : List π),
      ∃ step : UploadStep π,
        ((upload_cases titleOf create_case add_result existing (pre ++ p :: post)).drop
            pre.length).head? = some step ∧
        step.payload = p ∧
        (step.invoked = true ↔
          (_norm (titleOf p) ∉ existing ∧
            ∀ st ∈ (upload_cases titleOf create_case add_result existing
                (pre ++ p :: post)).take pre.length,
              st.created ≠ none → _norm (titleOf st.payload) ≠ _norm (titleOf p))) := by
  intro pre
  induction pre with
  | nil =>
    intro existing p post
    simp only [List.nil_append, List.length_nil, List.drop_zero, List.take_zero]
    by_cases hmem : _norm (titleOf p) ∈ existing
    · rw [upload_cases_skip titleOf create_case add_result existing p post hmem]
      refine ⟨⟨p, false, none, none⟩, rfl, rfl, ?_⟩
      constructor
      · intro hfalse
        exact absurd hfalse (by simp)
      · intro h
        exact absurd hmem h.1
    · cases hcc : create_case p with
      | error e =>
        rw [upload_cases_err titleOf create_case add_result existing p post e hmem hcc]
        refine ⟨⟨p, true, none, none⟩, rfl, rfl, ?_⟩
        constructor
        · intro _
          exact ⟨hmem, fun st hst => absurd hst (List.not_mem_nil st)⟩
        · intro _
          rfl
      | ok res =>
        obtain ⟨oid⟩ := res
        cases oid with
        | some cid =>
          rw [upload_cases_created titleOf create_case add_result existing p post cid hmem hcc]
          refine ⟨⟨p, true, some cid, some (add_result cid 3 "Seeded by agent on create")⟩,
            rfl, rfl, ?_⟩
          constructor
          · intro _
            exact ⟨hmem, fun st hst => absurd hst (List.not_mem_nil st)⟩
          · intro _
            rfl
        | none =>
          rw [upload_cases_no_id titleOf create_case add_result existing p post hmem hcc]
          refine ⟨⟨p, true, none, none⟩, rfl, rfl, ?_⟩
          constructor
          · intro _
            exact ⟨hmem, fun st hst => absurd hst (List.not_mem_nil st)⟩
          · intro _
            rfl
  | cons q pre' ih =>
    intro existing p post
    rw [List.cons_append]
    by_cases hmem : _norm (titleOf q) ∈ existing
    · rw [upload_cases_skip titleOf create_case add_result existing q (pre' ++ p :: post) hmem]
      obtain ⟨step, hd, hp, hiff⟩ := ih existing p post
      refine ⟨step, ?_, hp, ?_⟩
      · rw [List.length_cons, List.drop_succ_cons]
        exact hd
      · rw [List.length_cons, List.take_succ_cons, List.forall_mem_cons, hiff]
        constructor
        · rintro ⟨h1, h2⟩
          exact ⟨h1, fun hc => absurd rfl hc, h2⟩
        · rintro ⟨h1, _, h2⟩
          exact ⟨h1, h2⟩
    · cases hcc : create_case q with
      | error e =>
        rw [upload_cases_err titleOf create_case add_result existing q (pre' ++ p :: post)
          e hmem hcc]
        obtain ⟨step, hd, hp, hiff⟩ := ih existing p post
        refine ⟨step, ?_, hp, ?_⟩
        · rw [List.length_cons, List.drop_succ_cons]
          exact hd
        · rw [List.length_cons, List.take_succ_cons, List.forall_mem_cons, hiff]
          constructor
          · rintro ⟨h1, h2⟩
            exact ⟨h1, fun hc => absurd rfl hc, h2⟩
          · rintro ⟨h1, _, h2⟩
            exact ⟨h1, h2⟩
      | ok res =>
        obtain ⟨oid⟩ := res
        cases oid with
        | none =>
          rw [upload_cases_no_id titleOf create_case add_result existing q (pre' ++ p :: post)
            hmem hcc]
          obtain ⟨step, hd, hp, hiff⟩ := ih existing p post
          refine ⟨step, ?_, hp, ?_⟩
          · rw [List.length_cons, List.drop_succ_cons]
            exact hd
          · rw [List.length_cons, List.take_succ_cons, List.forall_mem_cons, hiff]
            constructor
            · rintro ⟨h1, h2⟩
              exact ⟨h1, fun hc => absurd rfl hc, h2⟩
            · rintro ⟨h1, _, h2⟩
              exact ⟨h1, h2⟩
        | some cid =>
          rw [upload_cases_created titleOf create_case add_result existing q (pre' ++ p :: post)
            cid hmem hcc]
          obtain ⟨step, hd, hp, hiff⟩ := ih (_norm (titleOf q) :: existing) p post
          refine ⟨step, ?_, hp, ?_⟩
          · rw [List.length_cons, List.drop_succ_cons]
            exact hd
          · rw [List.length_cons, List.take_succ_cons, List.forall_mem_cons, hiff]
            constructor
            · rintro ⟨h1, h2⟩
              have hne : _norm (titleOf p) ≠ _norm (titleOf q) := by
                intro he
                exact h1 (by rw [he]; exact List.mem_cons_self _ _)
              have hnin : _norm (titleOf p) ∉ existing := by
                intro he
                exact h1 (List.mem_cons_of_mem _ he)
              exact ⟨hnin, fun _ => Ne.symm hne, h2⟩
            · rintro ⟨h1, h0, h2⟩
              have htq : _norm (titleOf q) ≠ _norm (titleOf p) := h0 (by simp)
              refine ⟨?_, h2⟩
              intro hin
              rcases List.mem_cons.mp hin with he | he
              · exact htq he.symm
              · exact h1 he

/-- **C8.** In the upload loop, `create_case` is invoked for a mapped
payload exactly when its normalized title is neither among the titles
present in `existing_titles` at the start of the loop nor equal to the
normalized title of a payload created (with an id) earlier in the same run;
skipped payloads record no `create_case` invocation. -/
theorem upload_dedup_spec {π : Type} (titleOf : π → Option String)
    (create_case : π → Except String CreateResponse)
    (add_result : Int → Nat → String → Except String Unit)
    (existing : List String) (ps pre post : List π) (p : π)
    (hps : ps = pre ++ p :: post) :
    ∃ step : UploadStep π,
      ((upload_cases titleOf create_case add_result existing ps).drop pre.length).head? =
        some step ∧
      step.payload = p ∧
      (step.invoked = true ↔
        (_norm (titleOf p) ∉ existing ∧
          ∀ st ∈ (upload_cases titleOf create_case add_result existing ps).take pre.length,
            st.created ≠ none → _norm (titleOf st.payload) ≠ _norm (titleOf p))) := by
  subst hps
  exact upload_invoked_aux titleOf create_case add_result pre existing p post

/-- Witness for C8: with an empty tracker, the payload `"case a"` coming
after the created payload `"Case A"` (same normalized title) is
characterized by the dedupe rule. -/
theorem upload_dedup_spec_witness :
    (["Case A", "case a"] = ["Case A"] ++ "case a" :: ([] : List String)) ∧
    ∃ step : UploadStep String,
      ((upload_cases (some : String → Option String) wCreateOk wAddOk []
          ["Case A", "case a"]).drop (["Case A"] : List String).length).head? = some step ∧
      step.payload = "case a" ∧
      (step.invoked = true ↔
        (_norm (some "case a") ∉ ([] : List String) ∧
          ∀ st ∈ (upload_cases (some : String → Option String) wCreateOk wAddOk []
              ["Case A", "case a"]).take (["Case A"] : List String).length,
            st.created ≠ none → _norm (some st.payload) ≠ _norm (some "case a"))) :=
  ⟨rfl, upload_dedup_spec (some : String → Option String) wCreateOk wAddOk []
    ["Case A", "case a"] ["Case A"] [] "case a" rfl⟩

theorem map_payloads_cons_ok {κ π : Type} (map_fn : κ → Except String π) (c : κ)
    (rest : List κ) (pl : π) (h : map_fn c = Except.ok pl) :
    map_payloads map_fn (c :: rest) = pl :: map_payloads map_fn rest := by
  rw [show map_payloads map_fn (c :: rest) =
      (match map_fn c with
       | Except.ok p => p :: map_payloads map_fn rest
       | Except.error _ => map_payloads map_fn rest) from rfl, h]

theorem map_payloads_cons_err {κ π : Type} (map_fn : κ → Except String π) (c : κ)
    (rest : List κ) (e : String) (h : map_fn c = Except.error e) :
    map_payloads map_fn (c :: rest) = map_payloads map_fn rest := by
  rw [show map_payloads map_fn (c :: rest) =
      (match map_fn c with
       | Except.ok p => p :: map_payloads map_fn rest
       | Except.error _ => map_payloads map_fn rest) from rfl, h]

theorem upload_cases_add_independent {π : Type} (titleOf : π → Option String)
    (create_case : π → Except String CreateResponse)
    (add1 add2 : Int → Nat → String → Except String Unit) :
    ∀ (ps : List π) (existing : List String),
      (upload_cases titleOf create_case add1 existing ps).map
          (fun st => (st.payload, st.invoked, st.created)) =
        (upload_cases titleOf create_case add2 existing ps).map
          (fun st => (st.payload, st.invoked, st.created)) := by
  intro ps
  induction ps with
  | nil => intro existing; rfl
  | cons p rest ih =>
    intro existing
    by_cases hmem : _norm (titleOf p) ∈ existing
    · rw [upload_cases_skip titleOf create_case add1 existing p rest hmem,
        upload_cases_skip titleOf create_case add2 existing p rest hmem,
        List.map_cons, List.map_cons, ih existing]
    · cases hcc : create_case p with
      | error e =>
        rw [upload_cases_err titleOf create_case add1 existing p rest e hmem hcc,
          upload_cases_err titleOf create_case add2 existing p rest e hmem hcc,
          List.map_cons, List.map_cons, ih existing]
      | ok res =>
        obtain ⟨oid⟩ := res
        cases oid with
        | some cid =>
          rw [upload_cases_created titleOf create_case add1 existing p rest cid hmem hcc,
            upload_cases_created titleOf create_case add2 existing p rest cid hmem hcc,
            List.map_cons, List.map_cons, ih (_norm (titleOf p) :: existing)]
        | none =>
          rw [upload_cases_no_id titleOf create_case add1 existing p rest hmem hcc,
            upload_cases_no_id titleOf create_case add2 existing p rest hmem hcc,
            List.map_cons, List.map_cons, ih existing]

/-- **C10.** Tracker failures degrade instead of aborting: a raising
`list_cases` leaves the existing-title set empty (no dedupe against
pre-existing cases, every payload treated as new); a raising
`map_case_to_testrail_payload` skips only the offending case while every
other case is still mapped, in order; a raising `create_case` records the
attempt and the loop continues with the remaining payloads unchanged; and
the recorded payload/invocation/creation outcomes do not depend on the
`add_result` function at all, so a raising `add_result` never stops the
loop. -/
theorem tracker_failures_degrade {κ π : Type} :
    (∀ (caseTitle : κ → Option String) (msg : String),
      existing_from caseTitle (Except.error msg) = []) ∧
    (∀ (map_fn : κ → Except String π) (pre post : List κ) (bad : κ) (e : String),
      map_fn bad = Except.error e →
      map_payloads map_fn (pre ++ bad :: post) =
        map_payloads map_fn pre ++ map_payloads map_fn post) ∧
    (∀ (titleOf : π → Option String) (create_case : π → Except String CreateResponse)
        (add_result : Int → Nat → String → Except String Unit)
        (existing : List String) (p : π) (rest : List π) (e : String),
      _norm (titleOf p) ∉ existing → create_case p = Except.error e →
      upload_cases titleOf create_case add_result existing (p :: rest) =
        ⟨p, true, none, none⟩ :: upload_cases titleOf create_case add_result existing rest) ∧
    (∀ (titleOf : π → Option String) (create_case : π → Except String CreateResponse)
        (add1 add2 : Int → Nat → String → Except String Unit)
        (existing : List String) (ps : List π),
      (upload_cases titleOf create_case add1 existing ps).map
          (fun st => (st.payload, st.invoked, st.created)) =
        (upload_cases titleOf create_case add2 existing ps).map
          (fun st => (st.payload, st.invoked, st.created))) := by
  refine ⟨fun _ _ => rfl, ?_, ?_, ?_⟩
  · intro map_fn pre post bad e hbad
    induction pre with
    | nil =>
      rw [List.nil_append, map_payloads_cons_err map_fn bad post e hbad]
      rfl
    | cons c pre' ihp =>
      rw [List.cons_append]
      cases hc : map_fn c with
      | ok pl =>
        rw [map_payloads_cons_ok map_fn c (pre' ++ bad :: post) pl hc,
          map_payloads_cons_ok map_fn c pre' pl hc, ihp, List.cons_append]
      | error er =>
        rw [map_payloads_cons_err map_fn c (pre' ++ bad :: post) er hc,
          map_payloads_cons_err map_fn c pre' er hc, ihp]
  · intro titleOf cc ar existing p rest e hmem hcc
    exact upload_cases_err titleOf cc ar existing p rest e hmem hcc
  · intro titleOf cc add1 add2 existing ps
    exact upload_cases_add_independent titleOf cc add1 add2 ps existing

/-- Witness for C10: each degradation clause applied at a concrete input. -/
theorem tracker_failures_degrade_witness :
    existing_from wCaseTitle (Except.error "HTTP 500") = [] ∧
    (wMapFn 0 = Except.error "bad case" ∧
      map_payloads wMapFn ([1] ++ 0 :: [2]) =
        map_payloads wMapFn [1] ++ map_payloads wMapFn [2]) ∧
    (_norm (some "Case A") ∉ ([] : List String) ∧
      wCreateErr "Case A" = Except.error "HTTP 500" ∧
      upload_cases (some : String → Option String) wCreateErr wAddOk [] ["Case A"] =
        ⟨"Case A", true, none, none⟩ ::
          upload_cases (some : String → Option String) wCreateErr wAddOk [] []) ∧
    (upload_cases (some : String → Option String) wCreateOk wAddOk [] ["Case A"]).map
        (fun st => (st.payload, st.invoked, st.created)) =
      (upload_cases (some : String → Option String) wCreateOk wAddErr [] ["Case A"]).map
        (fun st => (st.payload, st.invoked, st.created)) :=
  ⟨(@tracker_failures_degrade Nat String).1 wCaseTitle "HTTP 500",
    ⟨rfl, (@tracker_failures_degrade Nat String).2.1 wMapFn [1] [2] 0 "bad case" rfl⟩,
    ⟨by simp, rfl,
      (@tracker_failures_degrade Nat String).2.2.1 (some : String → Option String) wCreateErr
        wAddOk [] "Case A" [] "HTTP 500" (by simp) rfl⟩,
    (@tracker_failures_degrade Nat String).2.2.2 (some : String → Option String) wCreateOk
      wAddOk wAddErr [] ["Case A"]⟩

/-- Witness for C9: the normalization properties evaluated at a concrete
messy title. -/
theorem norm_total_idempotent_witness :
    (∀ c ∈ (_norm (some "  The LOGIN-page   loads!! ")).toList,
      isAlnumLower c = true ∨ c = ' ') ∧
    (_norm (some "  The LOGIN-page   loads!! ")).toList.Chain'
      (fun x y => ¬(x = ' ' ∧ y = ' ')) ∧
    (_norm (some "  The LOGIN-page   loads!! ")).toList.head? ≠ some ' ' ∧
    (_norm (some "  The LOGIN-page   loads!! ")).toList.getLast? ≠ some ' ' ∧
    _norm (some (_norm (some "  The LOGIN-page   loads!! "))) =
      _norm (some "  The LOGIN-page   loads!! ") :=
  norm_total_idempotent (some "  The LOGIN-page   loads!! ")
